import Mathlib

/-!
Shallow embedding of `stearnsc/config_loader` (src/lib.rs): the placeholder
matcher (`ENV_FLAG_REQ` / `ENV_FLAG_OPT` regexes), the environment resolver and
tree walker (`load_env_variable` / `load_env_variables`), and the error
aggregator (`combine_errors`, `ErrorKind::Multiple`, the `display` strings).

Strings are `List Char`.  The process environment is passed explicitly as a
function `Str → Option Str` (mirroring `env::var`, with `none` for
`VarError::NotPresent`; the `NotUnicode` failure mode is outside this model).
TOML tables (`toml::value::Table = BTreeMap<String, Value>`) are association
lists in ascending unique-key order, which is both the iteration order of the
`BTreeMap` and the order in which the walker's fold inserts resolved fields.
-/

abbrev Str := List Char

/-- The character class `[a-zA-Z0-9_]` of the two regexes at src/lib.rs:25-26. -/
def nameChar (c : Char) : Bool :=
  ('a' ≤ c && c ≤ 'z') || ('A' ≤ c && c ≤ 'Z') || ('0' ≤ c && c ≤ '9') || c = '_'

/-- Matches `([a-zA-Z0-9_]*)>>$` against the remainder of the string after the
literal opener, returning the captured variable name.  The input matches
exactly when it is `name ++ ">>"` with every character of `name` in the class. -/
def nameClose (l : Str) : Option Str :=
  match l.reverse with
  | '>' :: '>' :: revName =>
    if revName.all nameChar then some revName.reverse else none
  | _ => none

/-- The anchored regex `ENV_FLAG_REQ = ^<<ENV:([a-zA-Z0-9_]*)>>$`
(src/lib.rs:25), returning the capture group.  When the regex matches, the
source extracts the key with `trim_left_matches("<<ENV:")` and
`trim_right_matches(">>")`; since the captured name contains neither `<` nor
`>`, each trim removes exactly one copy of its pattern, so the extracted key
equals the capture returned here. -/
def env_flag_req (s : Str) : Option Str :=
  match s with
  | '<' :: '<' :: 'E' :: 'N' :: 'V' :: ':' :: rest => nameClose rest
  | _ => none

/-- The anchored regex `ENV_FLAG_OPT = ^<<ENV\?:([a-zA-Z0-9_]*)>>$`
(src/lib.rs:26), returning the capture group (= the key the source extracts
with `trim_left_matches("<<ENV?:")` / `trim_right_matches(">>")`). -/
def env_flag_opt (s : Str) : Option Str :=
  match s with
  | '<' :: '<' :: 'E' :: 'N' :: 'V' :: '?' :: ':' :: rest => nameClose rest
  | _ => none

/-- The full text `<<ENV:NAME>>` of a required placeholder with name `n`. -/
def reqStr (n : Str) : Str :=
  '<' :: '<' :: 'E' :: 'N' :: 'V' :: ':' :: (n ++ ['>', '>'])

/-- The full text `<<ENV?:NAME>>` of an optional placeholder with name `n`. -/
def optStr (n : Str) : Str :=
  '<' :: '<' :: 'E' :: 'N' :: 'V' :: '?' :: ':' :: (n ++ ['>', '>'])

/-- `toml::Value` (the generic configuration value tree).  The payloads of
`Float` and `Datetime` are never inspected by the walker; the float is carried
as its bit pattern and the datetime as its textual form. -/
inductive Value where
  | str (s : Str)
  | int (n : Int)
  | float (bits : Nat)
  | boolean (b : Bool)
  | datetime (d : Str)
  | arr (elems : List Value)
  | table (fields : List (Str × Value))

/-- The `Error` of the `error_chain!` block (src/lib.rs:145-167), restricted to
the two `ErrorKind`s the overlay walk itself produces: `EnvVarMissing(key)` and
`Multiple(errs)`.  The foreign-link kinds (`Io`, `Deserialization`,
`Serialization`, non-`NotPresent` `Env` failures) arise only outside the walk
modelled here. -/
inductive Error where
  | envVarMissing (key : Str)
  | multiple (errs : List Error)

/-- `combine_errors` (src/lib.rs:128-143).  The Rust second arm is the union
pattern `(Multiple(es), other) | (other, Multiple(es))`, and in both
orientations executes `es.push(other)`: the non-`Multiple` operand is appended
at the *end* of the list whichever side it stands on. -/
def combine_errors : Error → Error → Error
  | .multiple es1, .multiple es2 => .multiple (es1 ++ es2)
  | .multiple es, other => .multiple (es ++ [other])
  | other, .multiple es => .multiple (es ++ [other])
  | e1, e2 => .multiple [e1, e2]

/-- `itertools`' `join(", ")`: the rendered elements separated by `", "`. -/
def joinComma : List Str → Str
  | [] => []
  | [s] => s
  | s :: rest => s ++ ',' :: ' ' :: joinComma rest

mutual
/-- The user-facing text of an error: `display("Required environment variable
'{}' not set", key)` and `display("Errors: {}", errs.iter().join(", "))`
(src/lib.rs:157-166). -/
def Error.display : Error → Str
  | .envVarMissing key =>
    "Required environment variable '".toList ++ key ++ "' not set".toList
  | .multiple errs => "Errors: ".toList ++ joinComma (displayList errs)

/-- The rendered texts of a list of errors, in order. -/
def displayList : List Error → List Str
  | [] => []
  | e :: rest => Error.display e :: displayList rest
end

/-- Whether the error is an `ErrorKind::Multiple`. -/
def Error.isMultiple : Error → Bool
  | .multiple _ => true
  | _ => false

/-- The flat list of causes: the elements of a `Multiple`, or the error itself. -/
def Error.atoms : Error → List Error
  | .multiple es => es
  | e => [e]

/-- The flatness invariant of §3 of the spec: a `Multiple` holds at least two
causes and none of them is itself a `Multiple`. -/
def Error.Flat : Error → Prop
  | .multiple es => 2 ≤ es.length ∧ ∀ e ∈ es, e.isMultiple = false
  | _ => True

mutual
/-- `load_env_variable` (src/lib.rs:92-126).  Rust arm order: `String` matching
`ENV_FLAG_REQ`, then `String` matching `ENV_FLAG_OPT`, then `Table`, then the
catch-all `other_value => Ok(Some(other_value))` (which receives non-matching
strings, arrays and all remaining scalars). -/
def load_env_variable (env : Str → Option Str) : Value → Except Error (Option Value)
  | .str s =>
    match env_flag_req s with
    | some envKey =>
      match env envKey with
      | some envVar => .ok (some (.str envVar))
      | none => .error (.envVarMissing envKey)
    | none =>
      match env_flag_opt s with
      | some envKey =>
        match env envKey with
        | some envVar => .ok (some (.str envVar))
        | none => .ok none
      | none => .ok (some (.str s))
  | .table t => (load_env_fields env (.ok []) t).map (fun m => some (.table m))
  | otherValue => .ok (some otherValue)

/-- The fold inside `load_env_variables` (src/lib.rs:72-89), with the
accumulator `result` made explicit: `Ok(Some(new_v))` inserts into the table
when the accumulator is still `Ok` and is dropped otherwise; `Ok(None)` leaves
the accumulator unchanged; `Err(e)` replaces an `Ok` accumulator and is
`combine_errors`-merged into an `Err` one. -/
def load_env_fields (env : Str → Option Str)
    (result : Except Error (List (Str × Value))) :
    List (Str × Value) → Except Error (List (Str × Value))
  | [] => result
  | (k, v) :: rest =>
    load_env_fields env
      (match load_env_variable env v with
       | .ok (some newV) =>
         match result with
         | .ok m => .ok (m ++ [(k, newV)])
         | .error e => .error e
       | .ok none => result
       | .error e =>
         match result with
         | .ok _ => .error e
         | .error existingErr => .error (combine_errors existingErr e))
      rest
end

/-- `load_env_variables` (src/lib.rs:71-90): fold the table's fields starting
from `Ok(BTreeMap::new())` and wrap the result in `toml::Value::Table`. -/
def load_env_variables (env : Str → Option Str) (config : List (Str × Value)) :
    Except Error Value :=
  (load_env_fields env (.ok []) config).map Value.table

mutual
/-- The names of the required placeholders in `v` that the walk resolves and
finds unset in `env`, in the order the walk reaches them.  Mirrors exactly the
reach of `load_env_variable`: string leaves and table fields, but not array
elements (which the source's catch-all arm passes through unreached). -/
def missingReq (env : Str → Option Str) : Value → List Str
  | .str s =>
    match env_flag_req s with
    | some key =>
      match env key with
      | some _ => []
      | none => [key]
    | none => []
  | .table t => missingReqFields env t
  | _ => []

/-- The unset required-placeholder names of a table's fields, in field order. -/
def missingReqFields (env : Str → Option Str) : List (Str × Value) → List Str
  | [] => []
  | (_, v) :: rest => missingReq env v ++ missingReqFields env rest
end

mutual
/-- No string value anywhere in `v` (including inside arrays) matches either
placeholder regex. -/
def noPlaceholder : Value → Bool
  | .str s => (env_flag_req s).isNone && (env_flag_opt s).isNone
  | .table t => noPlaceholderFields t
  | .arr vs => noPlaceholderElems vs
  | _ => true

/-- `noPlaceholder` over every field value of a table. -/
def noPlaceholderFields : List (Str × Value) → Bool
  | [] => true
  | (_, v) :: rest => noPlaceholder v && noPlaceholderFields rest

/-- `noPlaceholder` over every element of an array. -/
def noPlaceholderElems : List Value → Bool
  | [] => true
  | v :: rest => noPlaceholder v && noPlaceholderElems rest
end

/-- The environment in which every variable is unset. -/
def envEmpty : Str → Option Str := fun _ => none

/-- The environment in which exactly the variable `k` is set, to `v`. -/
def envWith (k v : Str) : Str → Option Str :=
  fun q => if q = k then some v else none

/-- `p` occurs as a contiguous segment (substring) of `l`. -/
def seg (p l : Str) : Prop :=
  ∃ a b, l = a ++ p ++ b

/-- The number of `<` characters of a string. -/
def countLt (l : Str) : Nat := l.countP (fun c => decide (c = '<'))

/-- The walk's error invariant relative to the list `ms` of unset required
variable names: the error is flat and its atoms are, up to order, exactly one
`EnvVarMissing` cause per name of `ms`. -/
def ErrInv (ms : List Str) (e : Error) : Prop :=
  e.Flat ∧ e.atoms.Perm (ms.map Error.envVarMissing)

/-- The fold-accumulator invariant: an `Ok` accumulator has no missing names
recorded yet; an `Err` accumulator is a flat aggregate of the (nonempty) list
of missing names seen so far. -/
def AccInv (ms : List Str) : Except Error (List (Str × Value)) → Prop
  | .ok _ => ms = []
  | .error e => ms ≠ [] ∧ ErrInv ms e

/-- The per-field outcome of a fold step whose accumulator is still `Ok`:
`some (key, resolved)` when the field is kept, `none` when it is omitted
(optional placeholder with its variable unset). -/
def resolveField (env : Str → Option Str) (kv : Str × Value) : Option (Str × Value) :=
  match load_env_variable env kv.2 with
  | .ok (some w) => some (kv.1, w)
  | _ => none

/-- Extracts the text of an array's first string element: a discriminator used
to tell concrete `Value`s apart without decidable equality on `Value`. -/
def vProbe : Value → Str
  | .arr (.str s :: _) => s
  | _ => []

/-- Extracts the key of the first cause of a `Multiple`: a discriminator used
to tell concrete `Error`s apart without decidable equality on `Error`. -/
def eProbe : Error → Str
  | .multiple (.envVarMissing k :: _) => k
  | _ => []


theorem nameChar_ne_lt {c : Char} (h : nameChar c = true) : c ≠ '<' := by
  rintro rfl
  exact absurd h (by decide)

theorem nameChar_ne_gt {c : Char} (h : nameChar c = true) : c ≠ '>' := by
  rintro rfl
  exact absurd h (by decide)

theorem nameClose_eq_some {l n : Str} :
    nameClose l = some n ↔ l = n ++ ['>', '>'] ∧ n.all nameChar = true := by
  constructor
  · intro h
    unfold nameClose at h
    split at h
    · rename_i revName heq
      split at h
      · rename_i hall
        injection h with h
        subst h
        refine ⟨?_, ?_⟩
        · have := congrArg List.reverse heq
          simpa using this
        · rw [List.all_reverse]
          exact hall
      · exact absurd h (by simp)
    · exact absurd h (by simp)
  · rintro ⟨rfl, hall⟩
    unfold nameClose
    rw [show (n ++ ['>', '>']).reverse = '>' :: '>' :: n.reverse by simp]
    simp [List.all_reverse, hall]

theorem env_flag_req_eq_some {s n : Str} :
    env_flag_req s = some n ↔ s = reqStr n ∧ n.all nameChar = true := by
  constructor
  · intro h
    unfold env_flag_req at h
    split at h
    · obtain ⟨h1, h2⟩ := nameClose_eq_some.mp h
      subst h1
      exact ⟨rfl, h2⟩
    · exact absurd h (by simp)
  · rintro ⟨rfl, hall⟩
    show nameClose (n ++ ['>', '>']) = some n
    exact nameClose_eq_some.mpr ⟨rfl, hall⟩

theorem env_flag_opt_eq_some {s n : Str} :
    env_flag_opt s = some n ↔ s = optStr n ∧ n.all nameChar = true := by
  constructor
  · intro h
    unfold env_flag_opt at h
    split at h
    · obtain ⟨h1, h2⟩ := nameClose_eq_some.mp h
      subst h1
      exact ⟨rfl, h2⟩
    · exact absurd h (by simp)
  · rintro ⟨rfl, hall⟩
    show nameClose (n ++ ['>', '>']) = some n
    exact nameClose_eq_some.mpr ⟨rfl, hall⟩

theorem env_flag_req_of_opt {s n : Str} (h : env_flag_opt s = some n) :
    env_flag_req s = none := by
  obtain ⟨rfl, -⟩ := env_flag_opt_eq_some.mp h
  rfl

theorem countLt_eq_zero {l : Str} (h : l.all nameChar = true) : countLt l = 0 := by
  unfold countLt
  rw [List.countP_eq_zero]
  intro a ha
  simp only [decide_eq_true_eq]
  exact nameChar_ne_lt (List.all_eq_true.mp h a ha)

theorem countLt_append (a b : Str) : countLt (a ++ b) = countLt a + countLt b :=
  List.countP_append _ _ _

theorem countLt_reqStr {n : Str} (h : n.all nameChar = true) : countLt (reqStr n) = 2 := by
  have h0 : countLt n = 0 := countLt_eq_zero h
  simp only [reqStr, countLt, List.countP_cons, List.countP_append] at h0 ⊢
  simp [h0]

theorem countLt_optStr {n : Str} (h : n.all nameChar = true) : countLt (optStr n) = 2 := by
  have h0 : countLt n = 0 := countLt_eq_zero h
  simp only [optStr, countLt, List.countP_cons, List.countP_append] at h0 ⊢
  simp [h0]

theorem class_append_cancel {k m suf : Str} (hk : k.all nameChar = true)
    (hm : m.all nameChar = true)
    (h : k ++ '>' :: '>' :: suf = m ++ ['>', '>']) : k = m ∧ suf = [] := by
  induction k generalizing m with
  | nil =>
    cases m with
    | nil =>
      simp at h
      exact ⟨rfl, h⟩
    | cons c m' =>
      simp only [List.nil_append, List.cons_append, List.cons.injEq] at h
      simp only [List.all_cons, Bool.and_eq_true] at hm
      exact absurd hm.1 (by rw [← h.1]; decide)
  | cons c k' ih =>
    cases m with
    | nil =>
      simp only [List.cons_append, List.nil_append, List.cons.injEq] at h
      simp only [List.all_cons, Bool.and_eq_true] at hk
      exact absurd hk.1 (by rw [h.1]; decide)
    | cons d m' =>
      simp only [List.cons_append, List.cons.injEq] at h
      simp only [List.all_cons, Bool.and_eq_true] at hk hm
      obtain ⟨hkm, hsuf⟩ := ih hk.2 hm.2 h.2
      exact ⟨by rw [h.1, hkm], hsuf⟩

theorem combine_errors_flat {e1 e2 : Error} (h1 : e1.Flat) (h2 : e2.Flat) :
    (combine_errors e1 e2).Flat := by
  cases e1 with
  | envVarMissing k1 =>
    cases e2 with
    | envVarMissing k2 =>
      refine ⟨by simp, ?_⟩
      intro e he
      simp only [List.mem_cons, List.mem_singleton, List.not_mem_nil, or_false] at he
      rcases he with rfl | rfl <;> rfl
    | multiple es2 =>
      obtain ⟨hlen, helems⟩ := h2
      refine ⟨by simp; omega, ?_⟩
      intro e he
      rcases List.mem_append.mp he with h | h
      · exact helems e h
      · simp only [List.mem_singleton] at h
        subst h
        rfl
  | multiple es1 =>
    obtain ⟨hlen, helems⟩ := h1
    cases e2 with
    | envVarMissing k2 =>
      refine ⟨by simp; omega, ?_⟩
      intro e he
      rcases List.mem_append.mp he with h | h
      · exact helems e h
      · simp only [List.mem_singleton] at h
        subst h
        rfl
    | multiple es2 =>
      obtain ⟨hlen2, helems2⟩ := h2
      refine ⟨by simp; omega, ?_⟩
      intro e he
      rcases List.mem_append.mp he with h | h
      · exact helems e h
      · exact helems2 e h

theorem combine_errors_atoms (e1 e2 : Error) :
    (combine_errors e1 e2).atoms.Perm (e1.atoms ++ e2.atoms) := by
  cases e1 with
  | envVarMissing k1 =>
    cases e2 with
    | envVarMissing k2 => exact List.Perm.refl _
    | multiple es2 =>
      show (es2 ++ [Error.envVarMissing k1]).Perm ([Error.envVarMissing k1] ++ es2)
      exact List.perm_append_comm
  | multiple es1 =>
    cases e2 with
    | envVarMissing k2 => exact List.Perm.refl _
    | multiple es2 => exact List.Perm.refl _

theorem errInv_single (k : Str) : ErrInv [k] (.envVarMissing k) :=
  ⟨trivial, List.Perm.refl _⟩

theorem errInv_combine {ms1 ms2 : List Str} {e1 e2 : Error}
    (h1 : ErrInv ms1 e1) (h2 : ErrInv ms2 e2) :
    ErrInv (ms1 ++ ms2) (combine_errors e1 e2) := by
  refine ⟨combine_errors_flat h1.1 h2.1, ?_⟩
  refine (combine_errors_atoms e1 e2).trans ?_
  rw [List.map_append]
  exact List.Perm.append h1.2 h2.2

mutual
/-- The walk over one value: success means no unset required placeholder was
reached, and failure carries a flat aggregate of exactly the unset required
names, up to order. -/
theorem load_env_variable_spec (env : Str → Option Str) (v : Value) :
    (∀ r, load_env_variable env v = .ok r → missingReq env v = []) ∧
    (∀ e, load_env_variable env v = .error e →
      missingReq env v ≠ [] ∧ ErrInv (missingReq env v) e) := by
  cases v with
  | str s =>
    constructor
    · intro r hr
      cases hreq : env_flag_req s with
      | some key =>
        cases henv : env key with
        | some val => simp [missingReq, hreq, henv]
        | none => simp [load_env_variable, hreq, henv] at hr
      | none => simp [missingReq, hreq]
    · intro e he
      cases hreq : env_flag_req s with
      | some key =>
        cases henv : env key with
        | some val => simp [load_env_variable, hreq, henv] at he
        | none =>
          simp [load_env_variable, hreq, henv] at he
          have hm : missingReq env (.str s) = [key] := by simp [missingReq, hreq, henv]
          rw [hm]
          subst he
          exact ⟨by simp, errInv_single key⟩
      | none =>
        cases hopt : env_flag_opt s with
        | some key =>
          cases henv : env key with
          | some val => simp [load_env_variable, hreq, hopt, henv] at he
          | none => simp [load_env_variable, hreq, hopt, henv] at he
        | none => simp [load_env_variable, hreq, hopt] at he
  | table t =>
    have hf := load_env_fields_spec env t (.ok []) [] rfl
    constructor
    · intro r hr
      cases hres : load_env_fields env (.ok []) t with
      | ok m =>
        have := hf.1 m hres
        simpa [missingReq] using this
      | error e =>
        rw [load_env_variable, hres] at hr
        exact absurd hr (by simp [Except.map])
    · intro e he
      cases hres : load_env_fields env (.ok []) t with
      | ok m =>
        rw [load_env_variable, hres] at he
        exact absurd he (by simp [Except.map])
      | error e1 =>
        rw [load_env_variable, hres] at he
        have he1 : e1 = e := by simpa [Except.map] using he
        subst he1
        simpa [missingReq] using hf.2 e1 hres
  | int n => exact ⟨fun _ _ => rfl, fun e he => nomatch he⟩
  | float b => exact ⟨fun _ _ => rfl, fun e he => nomatch he⟩
  | boolean b => exact ⟨fun _ _ => rfl, fun e he => nomatch he⟩
  | datetime d => exact ⟨fun _ _ => rfl, fun e he => nomatch he⟩
  | arr es => exact ⟨fun _ _ => rfl, fun e he => nomatch he⟩

/-- The fold over a table's remaining fields, for any accumulator satisfying
the invariant: it visits every field (never short-circuits), and its outcome
aggregates the accumulator's missing names with those of every field. -/
theorem load_env_fields_spec (env : Str → Option Str) (l : List (Str × Value)) :
    ∀ (acc : Except Error (List (Str × Value))) (ms0 : List Str), AccInv ms0 acc →
    (∀ m, load_env_fields env acc l = .ok m → ms0 ++ missingReqFields env l = []) ∧
    (∀ e, load_env_fields env acc l = .error e →
      ms0 ++ missingReqFields env l ≠ [] ∧ ErrInv (ms0 ++ missingReqFields env l) e) := by
  cases l with
  | nil =>
    intro acc ms0 hacc
    constructor
    · intro m hm
      cases acc with
      | ok m0 => simpa [missingReqFields] using hacc
      | error e0 => exact nomatch hm
    · intro e he
      cases acc with
      | ok m0 => exact nomatch he
      | error e0 =>
        have he0 : e0 = e := by injection he
        subst he0
        obtain ⟨hne, hinv⟩ := hacc
        rw [missingReqFields, List.append_nil]
        exact ⟨hne, hinv⟩
  | cons kv rest =>
    obtain ⟨k, v⟩ := kv
    intro acc ms0 hacc
    have hv := load_env_variable_spec env v
    cases hlv : load_env_variable env v with
    | ok r1 =>
      have hmv : missingReq env v = [] := hv.1 r1 hlv
      cases r1 with
      | some newV =>
        cases acc with
        | ok m0 =>
          have hms0 : ms0 = [] := hacc
          subst hms0
          have ih := load_env_fields_spec env rest (.ok (m0 ++ [(k, newV)])) [] rfl
          constructor
          · intro m hm
            simp only [load_env_fields, hlv] at hm
            have := ih.1 m hm
            simpa [missingReqFields, hmv] using this
          · intro e he
            simp only [load_env_fields, hlv] at he
            have := ih.2 e he
            simpa [missingReqFields, hmv] using this
        | error e0 =>
          have ih := load_env_fields_spec env rest (.error e0) ms0 hacc
          constructor
          · intro m hm
            simp only [load_env_fields, hlv] at hm
            have := ih.1 m hm
            simpa [missingReqFields, hmv] using this
          · intro e he
            simp only [load_env_fields, hlv] at he
            have := ih.2 e he
            simpa [missingReqFields, hmv] using this
      | none =>
        cases acc with
        | ok m0 =>
          have hms0 : ms0 = [] := hacc
          subst hms0
          have ih := load_env_fields_spec env rest (.ok m0) [] rfl
          constructor
          · intro m hm
            simp only [load_env_fields, hlv] at hm
            have := ih.1 m hm
            simpa [missingReqFields, hmv] using this
          · intro e he
            simp only [load_env_fields, hlv] at he
            have := ih.2 e he
            simpa [missingReqFields, hmv] using this
        | error e0 =>
          have ih := load_env_fields_spec env rest (.error e0) ms0 hacc
          constructor
          · intro m hm
            simp only [load_env_fields, hlv] at hm
            have := ih.1 m hm
            simpa [missingReqFields, hmv] using this
          · intro e he
            simp only [load_env_fields, hlv] at he
            have := ih.2 e he
            simpa [missingReqFields, hmv] using this
    | error e1 =>
      obtain ⟨hnev, hinvv⟩ := hv.2 e1 hlv
      cases acc with
      | ok m0 =>
        have hms0 : ms0 = [] := hacc
        subst hms0
        have ih := load_env_fields_spec env rest (.error e1) (missingReq env v) ⟨hnev, hinvv⟩
        constructor
        · intro m hm
          simp only [load_env_fields, hlv] at hm
          have := ih.1 m hm
          simpa [missingReqFields] using this
        · intro e he
          simp only [load_env_fields, hlv] at he
          have := ih.2 e he
          simpa [missingReqFields] using this
      | error e0 =>
        obtain ⟨hne0, hinv0⟩ := hacc
        have hcomb : ErrInv (ms0 ++ missingReq env v) (combine_errors e0 e1) :=
          errInv_combine hinv0 hinvv
        have hnecomb : ms0 ++ missingReq env v ≠ [] := by
          intro hq
          exact hne0 (List.append_eq_nil.mp hq).1
        have ih := load_env_fields_spec env rest (.error (combine_errors e0 e1))
          (ms0 ++ missingReq env v) ⟨hnecomb, hcomb⟩
        constructor
        · intro m hm
          simp only [load_env_fields, hlv] at hm
          have := ih.1 m hm
          simpa [missingReqFields, List.append_assoc] using this
        · intro e he
          simp only [load_env_fields, hlv] at he
          have := ih.2 e he
          simpa [missingReqFields, List.append_assoc] using this
end

theorem load_env_fields_error (env : Str → Option Str) (l : List (Str × Value)) :
    ∀ e0, ∃ e1, load_env_fields env (.error e0) l = .error e1 := by
  induction l with
  | nil => exact fun e0 => ⟨e0, rfl⟩
  | cons kv rest ih =>
    obtain ⟨k, v⟩ := kv
    intro e0
    cases hlv : load_env_variable env v with
    | ok r1 =>
      cases r1 with
      | some w =>
        obtain ⟨e1, he1⟩ := ih e0
        exact ⟨e1, by simp only [load_env_fields, hlv]; exact he1⟩
      | none =>
        obtain ⟨e1, he1⟩ := ih e0
        exact ⟨e1, by simp only [load_env_fields, hlv]; exact he1⟩
    | error e =>
      obtain ⟨e1, he1⟩ := ih (combine_errors e0 e)
      exact ⟨e1, by simp only [load_env_fields, hlv]; exact he1⟩

theorem resolveField_key {env : Str → Option Str} {kv x : Str × Value}
    (h : resolveField env kv = some x) : x.1 = kv.1 := by
  unfold resolveField at h
  split at h
  · injection h with h
    subst h
    rfl
  · exact absurd h (by simp)

theorem load_env_fields_ok (env : Str → Option Str) (l : List (Str × Value)) :
    ∀ acc m, load_env_fields env (.ok acc) l = .ok m →
      m = acc ++ l.filterMap (resolveField env) := by
  induction l with
  | nil =>
    intro acc m hm
    have : acc = m := by injection hm
    subst this
    simp
  | cons kv rest ih =>
    obtain ⟨k, v⟩ := kv
    intro acc m hm
    cases hlv : load_env_variable env v with
    | ok r1 =>
      cases r1 with
      | some w =>
        simp only [load_env_fields, hlv] at hm
        have := ih (acc ++ [(k, w)]) m hm
        rw [this]
        simp [List.filterMap_cons, resolveField, hlv]
      | none =>
        simp only [load_env_fields, hlv] at hm
        have := ih acc m hm
        rw [this]
        simp [List.filterMap_cons, resolveField, hlv]
    | error e =>
      simp only [load_env_fields, hlv] at hm
      obtain ⟨e1, he1⟩ := load_env_fields_error env rest e
      rw [he1] at hm
      exact nomatch hm

mutual
/-- A value without placeholder strings passes through the walk unchanged. -/
theorem load_env_variable_id (env : Str → Option Str) (v : Value)
    (h : noPlaceholder v = true) : load_env_variable env v = .ok (some v) := by
  cases v with
  | str s =>
    simp only [noPlaceholder, Bool.and_eq_true, Option.isNone_iff_eq_none] at h
    simp [load_env_variable, h.1, h.2]
  | table t =>
    have hf := load_env_fields_id env t h []
    simp [load_env_variable, hf, Except.map]
  | arr es => rfl
  | int n => rfl
  | float b => rfl
  | boolean b => rfl
  | datetime d => rfl

/-- Folding fields without placeholders onto an `Ok` accumulator appends them
unchanged. -/
theorem load_env_fields_id (env : Str → Option Str) (l : List (Str × Value))
    (h : noPlaceholderFields l = true) :
    ∀ acc, load_env_fields env (.ok acc) l = .ok (acc ++ l) := by
  cases l with
  | nil =>
    intro acc
    simp [load_env_fields]
  | cons kv rest =>
    obtain ⟨k, v⟩ := kv
    intro acc
    simp only [noPlaceholderFields, Bool.and_eq_true] at h
    have hv := load_env_variable_id env v h.1
    have hrest := load_env_fields_id env rest h.2 (acc ++ [(k, v)])
    simp only [load_env_fields, hv]
    rw [hrest]
    simp
end

theorem seg_mid (a p b : Str) : seg p (a ++ p ++ b) := ⟨a, b, rfl⟩

theorem seg_app_left {p l : Str} (x : Str) (h : seg p l) : seg p (x ++ l) := by
  obtain ⟨a, b, rfl⟩ := h
  exact ⟨x ++ a, b, by simp⟩

theorem seg_trans {p q r : Str} (h1 : seg p q) (h2 : seg q r) : seg p r := by
  obtain ⟨a, b, rfl⟩ := h1
  obtain ⟨c, d, rfl⟩ := h2
  exact ⟨c ++ a, b ++ d, by simp⟩

theorem seg_display_envVarMissing (n : Str) : seg n (Error.display (.envVarMissing n)) :=
  ⟨"Required environment variable '".toList, "' not set".toList, by simp [Error.display]⟩

theorem seg_joinComma {x : Str} {xs : List Str} (h : x ∈ xs) : seg x (joinComma xs) := by
  induction xs with
  | nil => exact absurd h (List.not_mem_nil x)
  | cons y ys ih =>
    rcases List.mem_cons.mp h with rfl | hmem
    · cases ys with
      | nil => exact ⟨[], [], by simp [joinComma]⟩
      | cons z zs => exact ⟨[], ',' :: ' ' :: joinComma (z :: zs), by simp [joinComma]⟩
    · cases ys with
      | nil => exact absurd hmem (List.not_mem_nil x)
      | cons z zs =>
        have hx := ih hmem
        have h2 : joinComma (y :: z :: zs) = (y ++ [',', ' ']) ++ joinComma (z :: zs) := by
          simp [joinComma]
        rw [h2]
        exact seg_app_left _ hx

theorem mem_displayList {e : Error} {es : List Error} (h : e ∈ es) :
    Error.display e ∈ displayList es := by
  induction es with
  | nil => exact absurd h (List.not_mem_nil e)
  | cons y ys ih =>
    rcases List.mem_cons.mp h with rfl | hmem
    · simp [displayList]
    · simp only [displayList, List.mem_cons]
      exact Or.inr (ih hmem)

/-- Any unset-variable cause inside an error makes the error's display text
mention the variable's name. -/
theorem seg_display_of_atom {e : Error} {n : Str} (h : Error.envVarMissing n ∈ e.atoms) :
    seg n e.display := by
  cases e with
  | envVarMissing k =>
    simp only [Error.atoms, List.mem_singleton] at h
    injection h with h
    subst h
    exact seg_display_envVarMissing n
  | multiple es =>
    have h1 : Error.display (.envVarMissing n) ∈ displayList es := mem_displayList h
    have h2 := seg_joinComma h1
    have h3 := seg_trans (seg_display_envVarMissing n) h2
    show seg n ("Errors: ".toList ++ joinComma (displayList es))
    exact seg_app_left _ h3

theorem placeholder_countLt {p : Str}
    (hp : (∃ k, env_flag_req p = some k) ∨ (∃ k, env_flag_opt p = some k)) :
    countLt p = 2 ∧ ∃ t, p = '<' :: '<' :: t := by
  rcases hp with ⟨k, hk⟩ | ⟨k, hk⟩
  · obtain ⟨rfl, hall⟩ := env_flag_req_eq_some.mp hk
    exact ⟨countLt_reqStr hall, _, rfl⟩
  · obtain ⟨rfl, hall⟩ := env_flag_opt_eq_some.mp hk
    exact ⟨countLt_optStr hall, _, rfl⟩

theorem pre_nil {s pre p suf t1 : Str}
    (hs : s = pre ++ p ++ suf) (hss : s = '<' :: '<' :: t1)
    (hcs : countLt s = 2) (hcp : countLt p = 2) : pre = [] := by
  have hsum : countLt pre + (countLt p + countLt suf) = 2 := by
    rw [← countLt_append, ← countLt_append, ← List.append_assoc, ← hs]
    exact hcs
  have hpre0 : countLt pre = 0 := by omega
  cases pre with
  | nil => rfl
  | cons a pre' =>
    rw [hss] at hs
    simp only [List.cons_append, List.cons.injEq] at hs
    rw [← hs.1] at hpre0
    simp [countLt, List.countP_cons] at hpre0

theorem full_eq_req {m k suf : Str} (hallm : m.all nameChar = true)
    (hallk : k.all nameChar = true) (h : reqStr m = reqStr k ++ suf) : suf = [] := by
  simp only [reqStr, List.cons_append, List.cons.injEq, true_and] at h
  have h' : k ++ '>' :: '>' :: suf = m ++ ['>', '>'] := by
    simpa [List.append_assoc] using h.symm
  exact (class_append_cancel hallk hallm h').2

theorem full_eq_opt {m k suf : Str} (hallm : m.all nameChar = true)
    (hallk : k.all nameChar = true) (h : optStr m = optStr k ++ suf) : suf = [] := by
  simp only [optStr, List.cons_append, List.cons.injEq, true_and] at h
  have h' : k ++ '>' :: '>' :: suf = m ++ ['>', '>'] := by
    simpa [List.append_assoc] using h.symm
  exact (class_append_cancel hallk hallm h').2

theorem req_ne_opt_ext {m k suf : Str} (h : reqStr m = optStr k ++ suf) : False := by
  simp only [reqStr, optStr, List.cons_append, List.cons.injEq, true_and] at h
  exact absurd h.1 (by decide)

theorem opt_ne_req_ext {m k suf : Str} (h : optStr m = reqStr k ++ suf) : False := by
  simp only [reqStr, optStr, List.cons_append, List.cons.injEq, true_and] at h
  exact absurd h.1 (by decide)

/-- A string that properly contains a placeholder (with a nonempty prefix or
suffix around it) matches neither placeholder regex itself. -/
theorem no_match_of_proper {s pre p suf : Str}
    (hp : (∃ k, env_flag_req p = some k) ∨ (∃ k, env_flag_opt p = some k))
    (hs : s = pre ++ p ++ suf) (hproper : pre ≠ [] ∨ suf ≠ []) :
    env_flag_req s = none ∧ env_flag_opt s = none := by
  obtain ⟨hcp, t2, hpp⟩ := placeholder_countLt hp
  have main : ∀ m : Str, s = reqStr m ∧ m.all nameChar = true ∨
      s = optStr m ∧ m.all nameChar = true → False := by
    rintro m (⟨hsm, hallm⟩ | ⟨hsm, hallm⟩)
    · have hcs : countLt s = 2 := by rw [hsm]; exact countLt_reqStr hallm
      have hpre : pre = [] := pre_nil hs (by rw [hsm]; rfl) hcs hcp
      subst hpre
      simp only [List.nil_append] at hs
      rw [hsm] at hs
      rcases hp with ⟨k, hk⟩ | ⟨k, hk⟩
      · obtain ⟨hpk, hallk⟩ := env_flag_req_eq_some.mp hk
        rw [hpk] at hs
        have hsuf : suf = [] := full_eq_req hallm hallk hs
        cases hproper with
        | inl hl => exact hl rfl
        | inr hr => exact hr hsuf
      · obtain ⟨hpk, hallk⟩ := env_flag_opt_eq_some.mp hk
        rw [hpk] at hs
        exact req_ne_opt_ext hs
    · have hcs : countLt s = 2 := by rw [hsm]; exact countLt_optStr hallm
      have hpre : pre = [] := pre_nil hs (by rw [hsm]; rfl) hcs hcp
      subst hpre
      simp only [List.nil_append] at hs
      rw [hsm] at hs
      rcases hp with ⟨k, hk⟩ | ⟨k, hk⟩
      · obtain ⟨hpk, hallk⟩ := env_flag_req_eq_some.mp hk
        rw [hpk] at hs
        exact opt_ne_req_ext hs
      · obtain ⟨hpk, hallk⟩ := env_flag_opt_eq_some.mp hk
        rw [hpk] at hs
        have hsuf : suf = [] := full_eq_opt hallm hallk hs
        cases hproper with
        | inl hl => exact hl rfl
        | inr hr => exact hr hsuf
  constructor
  · cases hr : env_flag_req s with
    | none => rfl
    | some m => exact absurd (Or.inl (env_flag_req_eq_some.mp hr)) (fun h => main m h)
  · cases hr : env_flag_opt s with
    | none => rfl
    | some m => exact absurd (Or.inr (env_flag_opt_eq_some.mp hr)) (fun h => main m h)

/-- C1: a document whose walk reaches two or more required placeholders with
unset variables fails with a single error value whose display text mentions
every such variable name — the fold never short-circuits, so the names
collected from every field and every nested table all appear. -/
theorem c1_multi_failure_aggregation (env : Str → Option Str) (t : List (Str × Value))
    (h : 2 ≤ (missingReqFields env t).length) :
    ∃ e, load_env_variables env t = .error e ∧
      ∀ n ∈ missingReqFields env t, seg n e.display := by
  have hs := load_env_fields_spec env t (.ok []) [] rfl
  cases hres : load_env_fields env (.ok []) t with
  | ok m =>
    have h0 := hs.1 m hres
    rw [List.nil_append] at h0
    rw [h0] at h
    simp at h
  | error e =>
    have h2 := hs.2 e hres
    rw [List.nil_append] at h2
    have hperm := h2.2.2
    refine ⟨e, by simp [load_env_variables, hres, Except.map], ?_⟩
    intro n hn
    exact seg_display_of_atom (hperm.mem_iff.mpr (List.mem_map_of_mem _ hn))

/-- C1 witness: the spec's two-missing-variables scenario (`BAZ2`, `FOO2`). -/
theorem c1_witness :
    2 ≤ (missingReqFields envEmpty
      [("baz".toList, Value.str "<<ENV:BAZ2>>".toList),
       ("foo".toList, Value.str "<<ENV:FOO2>>".toList)]).length ∧
    ∃ e, load_env_variables envEmpty
      [("baz".toList, Value.str "<<ENV:BAZ2>>".toList),
       ("foo".toList, Value.str "<<ENV:FOO2>>".toList)] = .error e ∧
      ∀ n ∈ missingReqFields envEmpty
        [("baz".toList, Value.str "<<ENV:BAZ2>>".toList),
         ("foo".toList, Value.str "<<ENV:FOO2>>".toList)], seg n e.display :=
  ⟨by decide, c1_multi_failure_aggregation envEmpty _ (by decide)⟩

/-- C2 counterexample: with `FOO` set, a required placeholder that is an array
element is NOT resolved — the array passes through the catch-all arm unchanged
— although the same string resolves at field position. -/
theorem c2_counterexample :
    load_env_variable (envWith "FOO".toList "x".toList)
        (.arr [.str "<<ENV:FOO>>".toList]) =
      .ok (some (.arr [.str "<<ENV:FOO>>".toList])) ∧
    load_env_variable (envWith "FOO".toList "x".toList) (.str "<<ENV:FOO>>".toList) =
      .ok (some (.str "x".toList)) ∧
    Value.arr [.str "<<ENV:FOO>>".toList] ≠ Value.arr [.str "x".toList] := by
  refine ⟨rfl, rfl, ?_⟩
  intro hcontra
  exact absurd (congrArg vProbe hcontra) (by decide)

/-- C2 amended: the overlay does not recurse into arrays at all — every
`Array` value (elements, order and placeholder strings included) passes
through unchanged via the source's catch-all arm. -/
theorem c2_amended (env : Str → Option Str) (elems : List Value) :
    load_env_variable env (.arr elems) = .ok (some (.arr elems)) := rfl

/-- C3 counterexample: the regexes capture with `*`, so `<<ENV:>>` and
`<<ENV?:>>` ARE classified as placeholders with the empty variable name, and
with nothing set they do not pass through unchanged. -/
theorem c3_counterexample :
    env_flag_req "<<ENV:>>".toList = some [] ∧
    env_flag_opt "<<ENV?:>>".toList = some [] ∧
    load_env_variable envEmpty (.str "<<ENV:>>".toList) = .error (.envVarMissing []) ∧
    load_env_variable envEmpty (.str "<<ENV?:>>".toList) = .ok none ∧
    load_env_variable envEmpty (.str "<<ENV:>>".toList) ≠
      .ok (some (.str "<<ENV:>>".toList)) ∧
    load_env_variable envEmpty (.str "<<ENV?:>>".toList) ≠
      .ok (some (.str "<<ENV?:>>".toList)) := by
  have h1 : load_env_variable envEmpty (.str "<<ENV:>>".toList) =
      .error (.envVarMissing []) := rfl
  have h2 : load_env_variable envEmpty (.str "<<ENV?:>>".toList) = .ok none := rfl
  refine ⟨by decide, by decide, h1, h2, ?_, ?_⟩
  · rw [h1]
    intro h
    exact nomatch h
  · rw [h2]
    intro h
    exact nomatch h

/-- C3 amended: a string is classified as a placeholder exactly when it is the
anchored form whose name has zero or more `[A-Za-z0-9_]` characters; in
particular `<<ENV:>>` and `<<ENV?:>>` are placeholders with the empty name —
the required one fails with a missing-variable error for the empty name when
it is unset, and the optional one is omitted. -/
theorem c3_amended :
    (∀ s n, env_flag_req s = some n ↔ s = reqStr n ∧ n.all nameChar = true) ∧
    (∀ s n, env_flag_opt s = some n ↔ s = optStr n ∧ n.all nameChar = true) ∧
    load_env_variable envEmpty (.str (reqStr [])) = .error (.envVarMissing []) ∧
    load_env_variable envEmpty (.str (optStr [])) = .ok none :=
  ⟨fun _ _ => env_flag_req_eq_some, fun _ _ => env_flag_opt_eq_some, rfl, rfl⟩

/-- C4: anchoring — a string containing a placeholder only as a proper
substring (nonempty prefix or suffix around it) is passed through as an
ordinary literal, whatever the environment holds. -/
theorem c4_anchoring (env : Str → Option Str) (s pre suf p : Str)
    (hp : (∃ k, env_flag_req p = some k) ∨ (∃ k, env_flag_opt p = some k))
    (hs : s = pre ++ p ++ suf) (hproper : pre ≠ [] ∨ suf ≠ []) :
    load_env_variable env (.str s) = .ok (some (.str s)) := by
  obtain ⟨h1, h2⟩ := no_match_of_proper hp hs hproper
  simp [load_env_variable, h1, h2]

/-- C4 witness: `"prefix<<ENV:FOO>>"` stays literal although `FOO` is set. -/
theorem c4_witness :
    load_env_variable (envWith "FOO".toList "x".toList)
        (.str "prefix<<ENV:FOO>>".toList) =
      .ok (some (.str "prefix<<ENV:FOO>>".toList)) :=
  c4_anchoring (envWith "FOO".toList "x".toList) "prefix<<ENV:FOO>>".toList
    "prefix".toList [] "<<ENV:FOO>>".toList
    (Or.inl ⟨"FOO".toList, by decide⟩) (by decide) (Or.inl (by decide))

/-- C5: a field holding an optional placeholder whose variable is unset is
entirely absent from the resolved table (no entry under its key at all), while
every other field whose value resolves is kept with its resolved value. -/
theorem c5_optional_unset_field_absent (env : Str → Option Str)
    (t1 t2 m : List (Str × Value)) (k s name : Str)
    (hopt : env_flag_opt s = some name) (hunset : env name = none)
    (hnodup : ((t1 ++ (k, Value.str s) :: t2).map Prod.fst).Nodup)
    (hres : load_env_variables env (t1 ++ (k, Value.str s) :: t2) = .ok (.table m)) :
    (∀ v, (k, v) ∉ m) ∧
    (∀ k2 v2 w, (k2, v2) ∈ t1 ++ t2 → load_env_variable env v2 = .ok (some w) →
      (k2, w) ∈ m) := by
  have hreq : env_flag_req s = none := env_flag_req_of_opt hopt
  have hfield : load_env_variable env (.str s) = .ok none := by
    simp [load_env_variable, hreq, hopt, hunset]
  have hfok : load_env_fields env (.ok []) (t1 ++ (k, Value.str s) :: t2) = .ok m := by
    unfold load_env_variables at hres
    cases hcase : load_env_fields env (.ok []) (t1 ++ (k, Value.str s) :: t2) with
    | ok m1 =>
      rw [hcase] at hres
      simp only [Except.map, Except.ok.injEq, Value.table.injEq] at hres
      rw [hres]
    | error e =>
      rw [hcase] at hres
      exact absurd hres (by simp [Except.map])
  have hm := load_env_fields_ok env _ [] m hfok
  have hrf : resolveField env (k, Value.str s) = none := by
    simp [resolveField, hfield]
  simp only [List.nil_append, List.filterMap_append, List.filterMap_cons, hrf] at hm
  have hknot : k ∉ t1.map Prod.fst ++ t2.map Prod.fst := by
    rw [List.map_append, List.map_cons, List.nodup_middle] at hnodup
    exact (List.nodup_cons.mp hnodup).1
  constructor
  · intro v hv
    rw [hm] at hv
    apply hknot
    rcases List.mem_append.mp hv with hin | hin
    · obtain ⟨a, ha, hfa⟩ := List.mem_filterMap.mp hin
      have hk : k = a.1 := resolveField_key hfa
      rw [hk]
      exact List.mem_append.mpr (Or.inl (List.mem_map_of_mem _ ha))
    · obtain ⟨a, ha, hfa⟩ := List.mem_filterMap.mp hin
      have hk : k = a.1 := resolveField_key hfa
      rw [hk]
      exact List.mem_append.mpr (Or.inr (List.mem_map_of_mem _ ha))
  · intro k2 v2 w hmem hres2
    rw [hm]
    have hsome : resolveField env (k2, v2) = some (k2, w) := by
      simp [resolveField, hres2]
    rcases List.mem_append.mp hmem with hin | hin
    · exact List.mem_append.mpr (Or.inl (List.mem_filterMap.mpr ⟨(k2, v2), hin, hsome⟩))
    · exact List.mem_append.mpr (Or.inr (List.mem_filterMap.mpr ⟨(k2, v2), hin, hsome⟩))

/-- C5 witness: the spec's `baz = "<<ENV?:BAZ>>"` scenario with `BAZ` unset:
the resolved table keeps `bar` and `foo` and has no `baz` entry. -/
theorem c5_witness :
    env_flag_opt "<<ENV?:BAZ>>".toList = some "BAZ".toList ∧
    load_env_variables envEmpty
      [("bar".toList, Value.int 1234),
       ("baz".toList, Value.str "<<ENV?:BAZ>>".toList),
       ("foo".toList, Value.str "foo value".toList)] =
      .ok (.table [("bar".toList, Value.int 1234),
                   ("foo".toList, Value.str "foo value".toList)]) ∧
    (∀ v, ("baz".toList, v) ∉
      [("bar".toList, Value.int 1234), ("foo".toList, Value.str "foo value".toList)]) ∧
    (∀ k2 v2 w, (k2, v2) ∈
        [("bar".toList, Value.int 1234)] ++ [("foo".toList, Value.str "foo value".toList)] →
      load_env_variable envEmpty v2 = .ok (some w) →
      (k2, w) ∈
        [("bar".toList, Value.int 1234), ("foo".toList, Value.str "foo value".toList)]) :=
  ⟨by decide, rfl,
   c5_optional_unset_field_absent envEmpty
     [("bar".toList, Value.int 1234)] [("foo".toList, Value.str "foo value".toList)]
     [("bar".toList, Value.int 1234), ("foo".toList, Value.str "foo value".toList)]
     "baz".toList "<<ENV?:BAZ>>".toList "BAZ".toList
     (by decide) rfl (by decide) rfl⟩

/-- C6: a required placeholder whose variable is set resolves to the
variable's current value as a `String` node — whatever the content, the empty
string included — and a set optional placeholder behaves identically. -/
theorem c6_set_variable_resolves (env : Str → Option Str) (s name value : Str)
    (hset : env name = some value) :
    (env_flag_req s = some name →
      load_env_variable env (.str s) = .ok (some (.str value))) ∧
    (env_flag_opt s = some name →
      load_env_variable env (.str s) = .ok (some (.str value))) := by
  constructor
  · intro h
    simp [load_env_variable, h, hset]
  · intro h
    have hreq := env_flag_req_of_opt h
    simp [load_env_variable, hreq, h, hset]

/-- C6 witness: `FOO` set to the empty string resolves both placeholder forms
to the empty-string `String` node. -/
theorem c6_witness :
    envWith "FOO".toList [] "FOO".toList = some [] ∧
    load_env_variable (envWith "FOO".toList []) (.str "<<ENV:FOO>>".toList) =
      .ok (some (.str [])) ∧
    load_env_variable (envWith "FOO".toList []) (.str "<<ENV?:FOO>>".toList) =
      .ok (some (.str [])) :=
  ⟨by decide,
   (c6_set_variable_resolves (envWith "FOO".toList []) "<<ENV:FOO>>".toList
     "FOO".toList [] (by decide)).1 (by decide),
   (c6_set_variable_resolves (envWith "FOO".toList []) "<<ENV?:FOO>>".toList
     "FOO".toList [] (by decide)).2 (by decide)⟩

/-- C7 counterexample: with three distinct single errors,
`combine(combine(a,b),c)` lists the causes as `[a,b,c]` while
`combine(a,combine(b,c))` lists them as `[b,c,a]`, so associativity fails; and
`other ⊕ Multiple(ys)` appends `other` at the end, not the front. -/
theorem c7_counterexample :
    combine_errors (combine_errors (.envVarMissing ['A']) (.envVarMissing ['B']))
        (.envVarMissing ['C']) =
      .multiple [.envVarMissing ['A'], .envVarMissing ['B'], .envVarMissing ['C']] ∧
    combine_errors (.envVarMissing ['A'])
        (combine_errors (.envVarMissing ['B']) (.envVarMissing ['C'])) =
      .multiple [.envVarMissing ['B'], .envVarMissing ['C'], .envVarMissing ['A']] ∧
    combine_errors (combine_errors (.envVarMissing ['A']) (.envVarMissing ['B']))
        (.envVarMissing ['C']) ≠
      combine_errors (.envVarMissing ['A'])
        (combine_errors (.envVarMissing ['B']) (.envVarMissing ['C'])) ∧
    combine_errors (.envVarMissing ['A'])
        (.multiple [.envVarMissing ['B'], .envVarMissing ['C']]) ≠
      .multiple [.envVarMissing ['A'], .envVarMissing ['B'], .envVarMissing ['C']] := by
  refine ⟨rfl, rfl, ?_, ?_⟩
  · intro h
    exact absurd (congrArg eProbe h) (by decide)
  · intro h
    exact absurd (congrArg eProbe h) (by decide)

/-- C7 amended: `Multiple(xs) ⊕ other = Multiple(xs ++ [other])` holds, but on
the other side `other ⊕ Multiple(ys) = Multiple(ys ++ [other])` — the
non-Multiple operand is appended at the end, not prepended — two `Multiple`s
concatenate in encounter order, and the operation is not associative in
general. -/
theorem c7_amended :
    (∀ (xs : List Error) (e : Error), e.isMultiple = false →
      combine_errors (.multiple xs) e = .multiple (xs ++ [e])) ∧
    (∀ (ys : List Error) (e : Error), e.isMultiple = false →
      combine_errors e (.multiple ys) = .multiple (ys ++ [e])) ∧
    (∀ xs ys : List Error,
      combine_errors (.multiple xs) (.multiple ys) = .multiple (xs ++ ys)) ∧
    ¬ (∀ a b c : Error,
      combine_errors (combine_errors a b) c = combine_errors a (combine_errors b c)) := by
  refine ⟨?_, ?_, fun xs ys => rfl, ?_⟩
  · intro xs e he
    cases e with
    | envVarMissing k => rfl
    | multiple es => exact absurd he (by simp [Error.isMultiple])
  · intro ys e he
    cases e with
    | envVarMissing k => rfl
    | multiple es => exact absurd he (by simp [Error.isMultiple])
  · intro hall
    have h := hall (.envVarMissing ['A']) (.envVarMissing ['B']) (.envVarMissing ['C'])
    exact absurd (congrArg eProbe h) (by decide)

/-- C7 witness: concrete instances of the two one-sided combination laws. -/
theorem c7_witness :
    combine_errors (.multiple [.envVarMissing ['A']]) (.envVarMissing ['B']) =
      .multiple [.envVarMissing ['A'], .envVarMissing ['B']] ∧
    combine_errors (.envVarMissing ['B']) (.multiple [.envVarMissing ['A']]) =
      .multiple [.envVarMissing ['A'], .envVarMissing ['B']] :=
  ⟨c7_amended.1 [.envVarMissing ['A']] (.envVarMissing ['B']) rfl,
   c7_amended.2.1 [.envVarMissing ['A']] (.envVarMissing ['B']) rfl⟩

/-- C8: every error the overlay walk produces is flat — a `Multiple` holds at
least two causes and no cause is itself a `Multiple` — and combining two flat
errors yields a single flat error. -/
theorem c8_flatness (env : Str → Option Str) :
    (∀ v e, load_env_variable env v = .error e → e.Flat) ∧
    (∀ t e, load_env_variables env t = .error e → e.Flat) ∧
    (∀ e1 e2 : Error, e1.Flat → e2.Flat → (combine_errors e1 e2).Flat) := by
  refine ⟨?_, ?_, fun e1 e2 h1 h2 => combine_errors_flat h1 h2⟩
  · intro v e he
    exact ((load_env_variable_spec env v).2 e he).2.1
  · intro t e he
    unfold load_env_variables at he
    cases hres : load_env_fields env (.ok []) t with
    | ok m =>
      rw [hres] at he
      exact absurd he (by simp [Except.map])
    | error e1 =>
      rw [hres] at he
      have he1 : e1 = e := by simpa [Except.map] using he
      subst he1
      exact ((load_env_fields_spec env t (.ok []) [] rfl).2 e1 hres).2.1

/-- C8 witness: the two-missing-variables scenario produces the flat
`Multiple` of exactly its two `EnvVarMissing` causes. -/
theorem c8_witness :
    Error.Flat (.multiple [.envVarMissing "BAZ2".toList, .envVarMissing "FOO2".toList]) :=
  (c8_flatness envEmpty).2.1
    [("baz".toList, Value.str "<<ENV:BAZ2>>".toList),
     ("foo".toList, Value.str "<<ENV:FOO2>>".toList)]
    (.multiple [.envVarMissing "BAZ2".toList, .envVarMissing "FOO2".toList]) rfl

/-- C9: a document none of whose string values matches a placeholder resolves
to exactly itself — every field, nested table and scalar unchanged. -/
theorem c9_no_placeholder_identity (env : Str → Option Str) (t : List (Str × Value))
    (h : noPlaceholderFields t = true) :
    load_env_variables env t = .ok (.table t) := by
  unfold load_env_variables
  rw [load_env_fields_id env t h []]
  simp [Except.map]

/-- C9 witness: the spec's placeholder-free scenario document. -/
theorem c9_witness :
    noPlaceholderFields
      [("foo".toList, Value.str "foo value".toList),
       ("bar".toList, Value.int 1234),
       ("baz".toList, Value.str "baz value".toList),
       ("more".toList, Value.table
         [("thing1".toList, Value.str "thing1 value".toList),
          ("thing2".toList, Value.str "thing2 value".toList)])] = true ∧
    load_env_variables envEmpty
      [("foo".toList, Value.str "foo value".toList),
       ("bar".toList, Value.int 1234),
       ("baz".toList, Value.str "baz value".toList),
       ("more".toList, Value.table
         [("thing1".toList, Value.str "thing1 value".toList),
          ("thing2".toList, Value.str "thing2 value".toList)])] =
      .ok (.table
      [("foo".toList, Value.str "foo value".toList),
       ("bar".toList, Value.int 1234),
       ("baz".toList, Value.str "baz value".toList),
       ("more".toList, Value.table
         [("thing1".toList, Value.str "thing1 value".toList),
          ("thing2".toList, Value.str "thing2 value".toList)])]) :=
  ⟨by decide, c9_no_placeholder_identity envEmpty _ (by decide)⟩

/-- C10: a successfully resolved placeholder (either form) always produces a
`String` node carrying the environment variable's raw text — never a value of
another scalar type, whatever the text holds. -/
theorem c10_resolved_is_string (env : Str → Option Str) (s name : Str) (v : Value)
    (hmatch : env_flag_req s = some name ∨ env_flag_opt s = some name)
    (hres : load_env_variable env (.str s) = .ok (some v)) :
    ∃ value, env name = some value ∧ v = .str value := by
  rcases hmatch with h | h
  · cases henv : env name with
    | some value =>
      refine ⟨value, rfl, ?_⟩
      simp only [load_env_variable, h, henv, Except.ok.injEq, Option.some.injEq] at hres
      exact hres.symm
    | none =>
      simp [load_env_variable, h, henv] at hres
  · have hreqn := env_flag_req_of_opt h
    cases henv : env name with
    | some value =>
      refine ⟨value, rfl, ?_⟩
      simp only [load_env_variable, hreqn, h, henv, Except.ok.injEq,
        Option.some.injEq] at hres
      exact hres.symm
    | none =>
      simp [load_env_variable, hreqn, h, henv] at hres

/-- C10 witness: a numeric-looking `PORT` value still resolves as a `String`
node. -/
theorem c10_witness :
    (env_flag_req "<<ENV:PORT>>".toList = some "PORT".toList ∨
     env_flag_opt "<<ENV:PORT>>".toList = some "PORT".toList) ∧
    ∃ value, envWith "PORT".toList "8080".toList "PORT".toList = some value ∧
      Value.str "8080".toList = Value.str value :=
  ⟨Or.inl (by decide),
   c10_resolved_is_string (envWith "PORT".toList "8080".toList)
     "<<ENV:PORT>>".toList "PORT".toList (.str "8080".toList)
     (Or.inl (by decide)) rfl⟩
